import Mathlib

/-!
Shallow embedding of the `crilogs` CRI log-line parser (`src/lib.rs`).

Strings are modelled as `List Char`.  The tokenization mirrors Rust's
`str::split_whitespace` (splitting on Unicode `White_Space` characters and
discarding empty pieces), and the timestamp validation models chrono's
`DateTime::parse_from_rfc3339` (an external dependency of the crate): a
fixed-offset RFC 3339 timestamp whose offset is kept as parsed, not
normalized to UTC.
-/

namespace Crilogs

/-- Unicode `White_Space` test, as used by Rust's `char::is_whitespace`. -/
def rustIsWhitespace (c : Char) : Bool :=
  let n := c.toNat
  (0x09 ≤ n && n ≤ 0x0D) || n == 0x20 || n == 0x85 || n == 0xA0 || n == 0x1680 ||
    (0x2000 ≤ n && n ≤ 0x200A) || n == 0x2028 || n == 0x2029 || n == 0x202F ||
    n == 0x205F || n == 0x3000

/-- Helper for `splitWhitespace`: `acc` holds the (reversed) characters of the
token currently being read. -/
def splitWhitespaceAux : List Char → List Char → List (List Char)
  | [], acc => if acc = [] then [] else [acc.reverse]
  | c :: cs, acc =>
    if rustIsWhitespace c then
      if acc = [] then splitWhitespaceAux cs []
      else acc.reverse :: splitWhitespaceAux cs []
    else splitWhitespaceAux cs (c :: acc)

/-- Model of Rust's `str::split_whitespace`: the maximal runs of
non-whitespace characters, in order. -/
def splitWhitespace (s : List Char) : List (List Char) :=
  splitWhitespaceAux s []

/-- Model of `Vec<&str>::join(" ")`: concatenate the pieces with a single
space between adjacent pieces. -/
def joinSpace : List (List Char) → List Char
  | [] => []
  | [t] => t
  | t :: ts => t ++ ' ' :: joinSpace ts

/-- Model of chrono's `DateTime<FixedOffset>`: the parsed calendar/clock
fields together with the UTC offset (in seconds) exactly as written in the
input, preserved rather than normalized away. -/
structure FixedDateTime where
  year : Nat
  month : Nat
  day : Nat
  hour : Nat
  minute : Nat
  second : Nat
  nanosecond : Nat
  offsetSeconds : Int
deriving DecidableEq, Repr

/-- Numeric value of an ASCII digit. -/
def digitVal (c : Char) : Nat := c.toNat - 48

/-- Read exactly `n` ASCII digits, accumulating their value onto `acc`. -/
def readFixedNat : Nat → Nat → List Char → Option (Nat × List Char)
  | 0, acc, s => some (acc, s)
  | _ + 1, _, [] => none
  | n + 1, acc, c :: s =>
    if c.isDigit then readFixedNat n (acc * 10 + digitVal c) s else none

/-- Consume one expected character. -/
def expectChar (c : Char) : List Char → Option (List Char)
  | d :: s => if d = c then some s else none
  | [] => none

/-- Read a run of ASCII digits: value of the first at most nine digits,
how many of those were read, and the rest of the input.  Digits past the
ninth are consumed but ignored, as chrono truncates sub-nanosecond digits. -/
def readFracDigits : List Char → Nat → Nat → Nat × Nat × List Char
  | [], acc, k => (acc, k, [])
  | c :: s, acc, k =>
    if c.isDigit then
      if k < 9 then readFracDigits s (acc * 10 + digitVal c) (k + 1)
      else readFracDigits s acc k
    else (acc, k, c :: s)

/-- Read an RFC 3339 numeric offset or Zulu marker, giving the offset in
seconds.  chrono rejects minute components of 60 or more and offsets whose
magnitude reaches one day. -/
def readOffset : List Char → Option (Int × List Char)
  | [] => none
  | c :: s =>
    if c = 'Z' ∨ c = 'z' then some (0, s)
    else if c = '+' ∨ c = '-' then
      match readFixedNat 2 0 s with
      | none => none
      | some (hh, s1) =>
        match expectChar ':' s1 with
        | none => none
        | some s2 =>
          match readFixedNat 2 0 s2 with
          | none => none
          | some (mm, s3) =>
            if 60 ≤ mm then none
            else
              let secs : Nat := hh * 3600 + mm * 60
              if 86400 ≤ secs then none
              else some (if c = '-' then -(secs : Int) else (secs : Int), s3)
    else none

/-- Gregorian leap-year test. -/
def isLeapYear (y : Nat) : Bool := (y % 4 == 0 && y % 100 != 0) || y % 400 == 0

/-- Number of days in a month of the proleptic Gregorian calendar. -/
def daysInMonth (y m : Nat) : Nat :=
  if m = 2 then (if isLeapYear y then 29 else 28)
  else if m = 4 ∨ m = 6 ∨ m = 9 ∨ m = 11 then 30
  else 31

/-- Model of chrono's `DateTime::parse_from_rfc3339`:
`YYYY-MM-DD` then a `T`/`t`/space separator, `hh:mm:ss`, an optional
fraction of at least one digit, and a mandatory offset (`Z`/`z` or
`±hh:mm`), with nothing left over.  Field ranges are checked as chrono
does, a second of 60 (leap second) being folded into the nanosecond
field of second 59. -/
def parse_from_rfc3339 (s : List Char) : Option FixedDateTime := do
  let (year, s) ← readFixedNat 4 0 s
  let s ← expectChar '-' s
  let (month, s) ← readFixedNat 2 0 s
  let s ← expectChar '-' s
  let (day, s) ← readFixedNat 2 0 s
  let s ← match s with
    | 'T' :: r => some r
    | 't' :: r => some r
    | ' ' :: r => some r
    | _ => none
  let (hour, s) ← readFixedNat 2 0 s
  let s ← expectChar ':' s
  let (minute, s) ← readFixedNat 2 0 s
  let s ← expectChar ':' s
  let (second, s) ← readFixedNat 2 0 s
  let (nano, s) ← match s with
    | '.' :: r =>
      match r with
      | c :: _ =>
        if c.isDigit then
          let (acc, k, rest) := readFracDigits r 0 0
          some (acc * 10 ^ (9 - k), rest)
        else none
      | [] => none
    | r => some (0, r)
  let (offset, s) ← readOffset s
  if s ≠ [] then none
  else if month < 1 ∨ 12 < month then none
  else if day < 1 ∨ daysInMonth year month < day then none
  else if 23 < hour ∨ 59 < minute ∨ 60 < second then none
  else if second = 60 then
    some ⟨year, month, day, hour, minute, 59, nano + 1000000000, offset⟩
  else
    some ⟨year, month, day, hour, minute, second, nano, offset⟩

/-- `StreamType` from `src/lib.rs`: the closed two-variant enumeration. -/
inductive StreamType where
  | StdOut
  | StdErr
deriving DecidableEq, Repr, Fintype

/-- `StreamType::from_str`: case-sensitive match against the closed set. -/
def StreamType.from_str (input : List Char) : Except (List Char) StreamType :=
  if input = "stderr".data then .ok .StdErr
  else if input = "stdout".data then .ok .StdOut
  else .error input

/-- `ParsingError` from `src/lib.rs`. -/
inductive ParsingError where
  | MissingTimestamp
  | TimestampFormat (s : List Char)
  | MissingStreamType
  | InvalidStreamType (s : List Char)
  | MissingLogTag
deriving DecidableEq, Repr

/-- `CriLog` from `src/lib.rs`: one parsed CRI log entry. -/
structure CriLog where
  timestamp : FixedDateTime
  stream_type : StreamType
  tag : List Char
  log : List Char
deriving DecidableEq, Repr

instance {ε α : Type} [DecidableEq ε] [DecidableEq α] : DecidableEq (Except ε α)
  | .error a, .error b => decidable_of_iff (a = b) (by simp)
  | .error _, .ok _ => isFalse (by simp)
  | .ok _, .error _ => isFalse (by simp)
  | .ok a, .ok b => decidable_of_iff (a = b) (by simp)

/-- `CriLog::is_stderr`. -/
def CriLog.is_stderr (c : CriLog) : Bool := c.stream_type = StreamType.StdErr

/-- `CriLog::is_stdout`. -/
def CriLog.is_stdout (c : CriLog) : Bool := c.stream_type = StreamType.StdOut

/-- `CriLog::from_str`: tokenize, then consume timestamp, stream type and
tag in order, joining whatever tokens remain into the message. -/
def CriLog.from_str (input : List Char) : Except ParsingError CriLog :=
  match splitWhitespace input with
  | [] => .error .MissingTimestamp
  | timestamp_str :: rest =>
    match parse_from_rfc3339 timestamp_str with
    | none => .error (.TimestampFormat timestamp_str)
    | some timestamp =>
      match rest with
      | [] => .error .MissingStreamType
      | stream_type_str :: rest =>
        match StreamType.from_str stream_type_str with
        | .error _ => .error (.InvalidStreamType stream_type_str)
        | .ok stream_type =>
          match rest with
          | [] => .error .MissingLogTag
          | tag :: rest =>
            .ok ⟨timestamp, stream_type, tag, joinSpace rest⟩

/-! ### Helper lemmas -/

theorem streamType_from_str_stdout : StreamType.from_str "stdout".data = .ok .StdOut := by
  decide

theorem streamType_from_str_stderr : StreamType.from_str "stderr".data = .ok .StdErr := by
  decide

/-- A line made only of whitespace characters tokenizes to no tokens. -/
theorem splitWhitespace_all_ws : ∀ s : List Char,
    (∀ c ∈ s, rustIsWhitespace c = true) → splitWhitespace s = []
  | [], _ => rfl
  | c :: cs, h => by
    have hc : rustIsWhitespace c = true := h c (List.mem_cons_self c cs)
    have ih := splitWhitespace_all_ws cs (fun d hd => h d (List.mem_cons_of_mem c hd))
    simp only [splitWhitespace, splitWhitespaceAux] at ih ⊢
    rw [if_pos hc]
    simpa using ih

/-- Every token produced by `splitWhitespaceAux` is nonempty and free of
whitespace characters, provided the accumulator already is. -/
theorem splitWhitespaceAux_tokens (s : List Char) :
    ∀ acc : List Char, (∀ c ∈ acc, rustIsWhitespace c = false) →
      ∀ t ∈ splitWhitespaceAux s acc, t ≠ [] ∧ ∀ c ∈ t, rustIsWhitespace c = false := by
  induction s with
  | nil =>
    intro acc hacc t ht
    by_cases h : acc = []
    · simp [splitWhitespaceAux, h] at ht
    · simp only [splitWhitespaceAux, if_neg h, List.mem_singleton] at ht
      subst ht
      refine ⟨by simpa using h, fun c hc => hacc c (List.mem_reverse.mp hc)⟩
  | cons c cs ih =>
    intro acc hacc t ht
    by_cases hw : rustIsWhitespace c = true
    · by_cases h : acc = []
      · rw [splitWhitespaceAux, if_pos hw, if_pos h] at ht
        exact ih [] (by simp) t ht
      · rw [splitWhitespaceAux, if_pos hw, if_neg h] at ht
        rcases List.mem_cons.mp ht with h' | h'
        · subst h'
          refine ⟨by simpa using h, fun d hd => hacc d (List.mem_reverse.mp hd)⟩
        · exact ih [] (by simp) t h'
    · rw [splitWhitespaceAux, if_neg hw] at ht
      refine ih (c :: acc) ?_ t ht
      intro d hd
      rcases List.mem_cons.mp hd with h' | h'
      · subst h'
        exact Bool.eq_false_iff.mpr hw
      · exact hacc d h'

/-- Every token of `splitWhitespace` is nonempty and whitespace-free. -/
theorem splitWhitespace_tokens (s : List Char) :
    ∀ t ∈ splitWhitespace s, t ≠ [] ∧ ∀ c ∈ t, rustIsWhitespace c = false :=
  splitWhitespaceAux_tokens s [] (by simp)

theorem mem_of_getLast?_eq_some {α : Type} : ∀ {l : List α} {x : α},
    l.getLast? = some x → x ∈ l
  | [], _, h => by simp at h
  | [a], x, h => by
    have ha : a = x := by simpa using h
    simp [ha]
  | a :: b :: u, x, h => by
    rw [List.getLast?_cons_cons] at h
    exact List.mem_cons_of_mem a (mem_of_getLast?_eq_some h)

/-- A list with no space character trivially has no two adjacent spaces. -/
theorem chain'_of_no_space (l : List Char) (h : ∀ c ∈ l, c ≠ ' ') :
    List.Chain' (fun a b => ¬(a = ' ' ∧ b = ' ')) l := by
  induction l with
  | nil => simp
  | cons a t ih =>
    rw [List.chain'_cons']
    refine ⟨fun y _ hy => h a (List.mem_cons_self a t) hy.1,
      ih fun c hc => h c (List.mem_cons_of_mem a hc)⟩

/-- Joining nonempty whitespace-free pieces with single spaces yields a list
whose only whitespace characters are single separating spaces, with no space
at either end; the join of a nonempty list of pieces is nonempty. -/
theorem joinSpace_normalized (ts : List (List Char)) :
    (∀ t ∈ ts, t ≠ [] ∧ ∀ c ∈ t, rustIsWhitespace c = false) →
    ((∀ c ∈ joinSpace ts, rustIsWhitespace c = true → c = ' ') ∧
      (joinSpace ts).head? ≠ some ' ' ∧ (joinSpace ts).getLast? ≠ some ' ' ∧
      List.Chain' (fun a b => ¬(a = ' ' ∧ b = ' ')) (joinSpace ts)) ∧
    (ts ≠ [] → joinSpace ts ≠ []) := by
  induction ts with
  | nil => exact fun _ => ⟨by simp [joinSpace], fun h => absurd rfl h⟩
  | cons t ts ih =>
    intro h
    have ht := h t (List.mem_cons_self t ts)
    have htne : t ≠ [] := ht.1
    have htns : ∀ c ∈ t, c ≠ ' ' := by
      intro c hc hceq
      have hw := ht.2 c hc
      rw [hceq] at hw
      simp [rustIsWhitespace] at hw
    cases ts with
    | nil =>
      have hj : joinSpace [t] = t := rfl
      rw [hj]
      refine ⟨⟨?_, ?_, ?_, chain'_of_no_space t htns⟩, fun _ => htne⟩
      · intro c hc hw
        exact absurd hw (by simp [ht.2 c hc])
      · intro hh
        exact htns ' ' (List.mem_of_mem_head? (by simp [hh])) rfl
      · intro hh
        exact htns ' ' (mem_of_getLast?_eq_some hh) rfl
    | cons u us =>
      obtain ⟨⟨ih1, ih2, ih3, ih4⟩, ihne⟩ :=
        ih (fun v hv => h v (List.mem_cons_of_mem t hv))
      have hne : joinSpace (u :: us) ≠ [] := ihne (by simp)
      have hj : joinSpace (t :: u :: us) = t ++ ' ' :: joinSpace (u :: us) := rfl
      rw [hj]
      refine ⟨⟨?_, ?_, ?_, ?_⟩, ?_⟩
      · intro c hc hw
        rcases List.mem_append.mp hc with h' | h'
        · exact absurd hw (by simp [ht.2 c h'])
        · rcases List.mem_cons.mp h' with h'' | h''
          · exact h''
          · exact ih1 c h'' hw
      · rw [List.head?_append_of_ne_nil t htne]
        intro hh
        exact htns ' ' (List.mem_of_mem_head? (by simp [hh])) rfl
      · rw [List.getLast?_append_cons]
        obtain ⟨b, v, hbv⟩ := List.exists_cons_of_ne_nil hne
        rw [hbv, List.getLast?_cons_cons, ← hbv]
        exact ih3
      · rw [List.chain'_append]
        refine ⟨chain'_of_no_space t htns, ?_, ?_⟩
        · rw [List.chain'_cons']
          refine ⟨?_, ih4⟩
          intro y hy hcon
          exact ih2 (by simpa [hcon.2] using hy)
        · intro x hx y hy hcon
          exact htns x (mem_of_getLast?_eq_some hx) hcon.1
      · intro _
        simp [htne]

/-- Inversion of a successful parse: the input had at least three tokens and
the message is the space-join of all tokens after the third. -/
theorem from_str_ok_shape (input : List Char) (e : CriLog)
    (h : CriLog.from_str input = .ok e) :
    ∃ t1 t2 t3 rest, splitWhitespace input = t1 :: t2 :: t3 :: rest ∧
      e.log = joinSpace rest := by
  rcases hsp : splitWhitespace input with _ | ⟨t1, _ | ⟨t2, _ | ⟨t3, rest⟩⟩⟩
  · simp [CriLog.from_str, hsp] at h
  · cases hts : parse_from_rfc3339 t1 <;> simp [CriLog.from_str, hsp, hts] at h
  · cases hts : parse_from_rfc3339 t1 with
    | none => simp [CriLog.from_str, hsp, hts] at h
    | some T =>
      cases hst : StreamType.from_str t2 <;> simp [CriLog.from_str, hsp, hts, hst] at h
  · cases hts : parse_from_rfc3339 t1 with
    | none => simp [CriLog.from_str, hsp, hts] at h
    | some T =>
      cases hst : StreamType.from_str t2 with
      | error s => simp [CriLog.from_str, hsp, hts, hst] at h
      | ok st =>
        simp only [CriLog.from_str, hsp, hts, hst, Except.ok.injEq] at h
        exact ⟨t1, t2, t3, rest, rfl, by rw [← h]⟩

/-! ### The claims -/

/-- Claim C1: a well-formed line — valid RFC 3339 first token, stream token in
the closed set, a tag token, and zero or more further tokens — parses
successfully, with the timestamp being the RFC 3339 parse of the first token
(offset preserved), the stream mapped from the second token, the tag the third
token verbatim, and the message the remaining tokens joined by single spaces. -/
theorem wellformed_line_parses (input t1 t2 t3 : List Char) (msgToks : List (List Char))
    (T : FixedDateTime)
    (hsplit : splitWhitespace input = t1 :: t2 :: t3 :: msgToks)
    (hts : parse_from_rfc3339 t1 = some T)
    (hst : t2 = "stdout".data ∨ t2 = "stderr".data) :
    CriLog.from_str input =
      .ok ⟨T, if t2 = "stdout".data then StreamType.StdOut else StreamType.StdErr,
        t3, joinSpace msgToks⟩ := by
  rcases hst with h | h <;> subst h
  · rw [if_pos rfl]
    simp only [CriLog.from_str, hsplit, hts]
    rfl
  · rw [if_neg (by decide)]
    simp only [CriLog.from_str, hsplit, hts]
    rfl

theorem wellformed_line_parses_witness :
    CriLog.from_str ("2016-10-06T00:17:09.669794202Z  stdout   P   a    b").data =
      .ok ⟨⟨2016, 10, 6, 0, 17, 9, 669794202, 0⟩,
        if "stdout".data = "stdout".data then StreamType.StdOut else StreamType.StdErr,
        "P".data, joinSpace ["a".data, "b".data]⟩ :=
  wellformed_line_parses ("2016-10-06T00:17:09.669794202Z  stdout   P   a    b").data
    ("2016-10-06T00:17:09.669794202Z").data ("stdout").data ("P").data
    ["a".data, "b".data] ⟨2016, 10, 6, 0, 17, 9, 669794202, 0⟩
    (by decide) (by decide) (Or.inl rfl)

/-- Claim C2: validation is left-to-right and short-circuits: with no token at
all the error is `MissingTimestamp`, and with an invalid first token the error
is `TimestampFormat` for that token even when the second token is not a valid
stream token — an `InvalidStreamType` error is never reported in that case. -/
theorem leftmost_error_wins (input : List Char) :
    (splitWhitespace input = [] → CriLog.from_str input = .error .MissingTimestamp) ∧
    (∀ t1 t2 rest, splitWhitespace input = t1 :: t2 :: rest →
      parse_from_rfc3339 t1 = none → (∀ st, StreamType.from_str t2 ≠ .ok st) →
      CriLog.from_str input = .error (.TimestampFormat t1) ∧
        ∀ s, CriLog.from_str input ≠ .error (.InvalidStreamType s)) := by
  constructor
  · intro h
    simp [CriLog.from_str, h]
  · intro t1 t2 rest hsplit hts _
    have hmain : CriLog.from_str input = .error (.TimestampFormat t1) := by
      simp [CriLog.from_str, hsplit, hts]
    exact ⟨hmain, fun s => by simp [hmain]⟩

theorem leftmost_error_wins_witness :
    CriLog.from_str ("not-a-timestamp also-bad x").data =
      .error (.TimestampFormat "not-a-timestamp".data) :=
  ((leftmost_error_wins ("not-a-timestamp also-bad x").data).2
    ("not-a-timestamp").data ("also-bad").data ["x".data]
    (by decide) (by decide) (by decide)).1

/-- Claim C3: an input with no whitespace-delimited token — empty or made up
only of whitespace characters — fails with `MissingTimestamp`. -/
theorem blank_line_missing_timestamp (input : List Char)
    (h : ∀ c ∈ input, rustIsWhitespace c = true) :
    CriLog.from_str input = .error .MissingTimestamp := by
  simp [CriLog.from_str, splitWhitespace_all_ws input h]

theorem blank_line_missing_timestamp_witness :
    CriLog.from_str "".data = .error .MissingTimestamp ∧
      CriLog.from_str "   ".data = .error .MissingTimestamp :=
  ⟨blank_line_missing_timestamp "".data (by decide),
    blank_line_missing_timestamp "   ".data (by decide)⟩

/-- Claim C4: when the first token exists but is not a valid RFC 3339
timestamp, parsing fails with `TimestampFormat` carrying exactly that token. -/
theorem invalid_timestamp_reports_token (input t1 : List Char) (rest : List (List Char))
    (hsplit : splitWhitespace input = t1 :: rest)
    (hts : parse_from_rfc3339 t1 = none) :
    CriLog.from_str input = .error (.TimestampFormat t1) := by
  simp [CriLog.from_str, hsplit, hts]

theorem invalid_timestamp_reports_token_witness :
    CriLog.from_str ("not-a-timestamp stdout P msg").data =
      .error (.TimestampFormat "not-a-timestamp".data) :=
  invalid_timestamp_reports_token ("not-a-timestamp stdout P msg").data
    ("not-a-timestamp").data ["stdout".data, "P".data, "msg".data]
    (by decide) (by decide)

/-- Claim C5: after a valid timestamp, the second token is matched
case-sensitively against exactly `{"stdout", "stderr"}`: `"stdout"` can only
produce `StdOut`, `"stderr"` can only produce `StdErr`, and any other second
token fails with `InvalidStreamType` carrying that token. -/
theorem stream_token_closed_set (input t1 t2 : List Char) (rest : List (List Char))
    (T : FixedDateTime)
    (hsplit : splitWhitespace input = t1 :: t2 :: rest)
    (hts : parse_from_rfc3339 t1 = some T) :
    (t2 = "stdout".data → ∀ e, CriLog.from_str input = .ok e →
      e.stream_type = StreamType.StdOut) ∧
    (t2 = "stderr".data → ∀ e, CriLog.from_str input = .ok e →
      e.stream_type = StreamType.StdErr) ∧
    (t2 ≠ "stdout".data → t2 ≠ "stderr".data →
      CriLog.from_str input = .error (.InvalidStreamType t2)) := by
  refine ⟨?_, ?_, ?_⟩
  · rintro rfl e he
    cases rest with
    | nil =>
      simp only [CriLog.from_str, hsplit, hts] at he
      have he' : (Except.error ParsingError.MissingLogTag : Except ParsingError CriLog) =
          Except.ok e := he
      exact Except.noConfusion he'
    | cons t3 ms =>
      simp only [CriLog.from_str, hsplit, hts] at he
      have he' : (Except.ok ⟨T, StreamType.StdOut, t3, joinSpace ms⟩ :
          Except ParsingError CriLog) = Except.ok e := he
      injection he' with h2
      rw [← h2]
  · rintro rfl e he
    cases rest with
    | nil =>
      simp only [CriLog.from_str, hsplit, hts] at he
      have he' : (Except.error ParsingError.MissingLogTag : Except ParsingError CriLog) =
          Except.ok e := he
      exact Except.noConfusion he'
    | cons t3 ms =>
      simp only [CriLog.from_str, hsplit, hts] at he
      have he' : (Except.ok ⟨T, StreamType.StdErr, t3, joinSpace ms⟩ :
          Except ParsingError CriLog) = Except.ok e := he
      injection he' with h2
      rw [← h2]
  · intro h1 h2
    have hstf : StreamType.from_str t2 = .error t2 := by
      simp [StreamType.from_str, h1, h2]
    simp [CriLog.from_str, hsplit, hts, hstf]

theorem stream_token_closed_set_witness :
    CriLog.from_str ("2016-10-06T00:17:09.669794202Z Stdout P msg").data =
      .error (.InvalidStreamType "Stdout".data) :=
  (stream_token_closed_set ("2016-10-06T00:17:09.669794202Z Stdout P msg").data
    ("2016-10-06T00:17:09.669794202Z").data ("Stdout").data ["P".data, "msg".data]
    ⟨2016, 10, 6, 0, 17, 9, 669794202, 0⟩
    (by decide) (by decide)).2.2 (by decide) (by decide)

/-- Claim C6: a line of exactly two tokens — a valid timestamp and a valid
stream token — fails with `MissingLogTag`, which carries no payload. -/
theorem two_tokens_missing_tag (input t1 t2 : List Char) (T : FixedDateTime)
    (st : StreamType)
    (hsplit : splitWhitespace input = [t1, t2])
    (hts : parse_from_rfc3339 t1 = some T)
    (hst : StreamType.from_str t2 = .ok st) :
    CriLog.from_str input = .error .MissingLogTag := by
  simp [CriLog.from_str, hsplit, hts, hst]

theorem two_tokens_missing_tag_witness :
    CriLog.from_str ("2016-10-06T00:17:09.669794202Z stdout").data =
      .error .MissingLogTag :=
  two_tokens_missing_tag ("2016-10-06T00:17:09.669794202Z stdout").data
    ("2016-10-06T00:17:09.669794202Z").data ("stdout").data
    ⟨2016, 10, 6, 0, 17, 9, 669794202, 0⟩ StreamType.StdOut
    (by decide) (by decide) (by decide)

/-- Claim C7: a line of exactly three tokens — valid timestamp, valid stream
token, tag — parses successfully with an empty message; zero tokens after the
tag is not an error. -/
theorem three_tokens_empty_message (input t1 t2 t3 : List Char) (T : FixedDateTime)
    (st : StreamType)
    (hsplit : splitWhitespace input = [t1, t2, t3])
    (hts : parse_from_rfc3339 t1 = some T)
    (hst : StreamType.from_str t2 = .ok st) :
    CriLog.from_str input = .ok ⟨T, st, t3, []⟩ := by
  simp [CriLog.from_str, hsplit, hts, hst, joinSpace]

theorem three_tokens_empty_message_witness :
    CriLog.from_str ("2016-10-06T00:17:09.669794202Z stdout P").data =
      .ok ⟨⟨2016, 10, 6, 0, 17, 9, 669794202, 0⟩, StreamType.StdOut, "P".data, []⟩ :=
  three_tokens_empty_message ("2016-10-06T00:17:09.669794202Z stdout P").data
    ("2016-10-06T00:17:09.669794202Z").data ("stdout").data ("P").data
    ⟨2016, 10, 6, 0, 17, 9, 669794202, 0⟩ StreamType.StdOut
    (by decide) (by decide) (by decide)

/-- Claim C8: for every successfully parsed entry, `is_stdout` and `is_stderr`
are mutually exclusive and exhaustive: exactly one of them returns true. -/
theorem stream_predicates_xor (input : List Char) (e : CriLog)
    (_h : CriLog.from_str input = .ok e) :
    (e.is_stdout = true ∨ e.is_stderr = true) ∧
      ¬(e.is_stdout = true ∧ e.is_stderr = true) := by
  cases e with
  | mk T st tg lg =>
    cases st <;> simp [CriLog.is_stdout, CriLog.is_stderr]

theorem stream_predicates_xor_witness :
    ((⟨⟨2016, 10, 6, 0, 17, 9, 669794202, 0⟩, StreamType.StdOut, "P".data, []⟩ :
        CriLog).is_stdout = true ∨
      (⟨⟨2016, 10, 6, 0, 17, 9, 669794202, 0⟩, StreamType.StdOut, "P".data, []⟩ :
        CriLog).is_stderr = true) ∧
    ¬((⟨⟨2016, 10, 6, 0, 17, 9, 669794202, 0⟩, StreamType.StdOut, "P".data, []⟩ :
        CriLog).is_stdout = true ∧
      (⟨⟨2016, 10, 6, 0, 17, 9, 669794202, 0⟩, StreamType.StdOut, "P".data, []⟩ :
        CriLog).is_stderr = true) :=
  stream_predicates_xor ("2016-10-06T00:17:09.669794202Z stdout P").data
    ⟨⟨2016, 10, 6, 0, 17, 9, 669794202, 0⟩, StreamType.StdOut, "P".data, []⟩
    (by decide)

/-- Claim C9: the message of every successfully parsed entry is
whitespace-normalized: its only whitespace character is the single space, it
neither starts nor ends with a space, and no two spaces are adjacent. -/
theorem message_whitespace_normalized (input : List Char) (e : CriLog)
    (h : CriLog.from_str input = .ok e) :
    (∀ c ∈ e.log, rustIsWhitespace c = true → c = ' ') ∧
    e.log.head? ≠ some ' ' ∧ e.log.getLast? ≠ some ' ' ∧
    List.Chain' (fun a b => ¬(a = ' ' ∧ b = ' ')) e.log := by
  obtain ⟨t1, t2, t3, rest, hsp, hlog⟩ := from_str_ok_shape input e h
  have hrest : ∀ u ∈ rest, u ≠ [] ∧ ∀ c ∈ u, rustIsWhitespace c = false := by
    intro u hu
    refine splitWhitespace_tokens input u ?_
    rw [hsp]
    exact List.mem_cons_of_mem _ (List.mem_cons_of_mem _ (List.mem_cons_of_mem _ hu))
  rw [hlog]
  exact (joinSpace_normalized rest hrest).1

theorem message_whitespace_normalized_witness :
    (∀ c ∈ ("a b").data, rustIsWhitespace c = true → c = ' ') ∧
    ("a b").data.head? ≠ some ' ' ∧ ("a b").data.getLast? ≠ some ' ' ∧
    List.Chain' (fun a b => ¬(a = ' ' ∧ b = ' ')) ("a b").data :=
  message_whitespace_normalized ("2016-10-06T00:17:09.669794202Z stdout P a  b").data
    ⟨⟨2016, 10, 6, 0, 17, 9, 669794202, 0⟩, StreamType.StdOut, "P".data, ("a b").data⟩
    (by decide)

/-- Claim C10: tokenization treats every whitespace character, including line
terminators, as a separator, so an input with embedded newlines between the
fields parses successfully and identically to its space-separated form. -/
theorem embedded_newlines_accepted :
    CriLog.from_str ("2016-10-06T00:17:09.669794202Z\nstdout\nP\nmsg").data =
      CriLog.from_str ("2016-10-06T00:17:09.669794202Z stdout P msg").data ∧
    CriLog.from_str ("2016-10-06T00:17:09.669794202Z\nstdout\nP\nmsg").data =
      .ok ⟨⟨2016, 10, 6, 0, 17, 9, 669794202, 0⟩, StreamType.StdOut,
        "P".data, "msg".data⟩ := by
  constructor <;> decide

end Crilogs
